import Mathlib

/-!
Verification of the Bibliometric Classification Engine
(`deploy_backend/analysis_engine.py`, class `ProfileAnalyzer`).

The Python code is shallowly embedded here:
* Python strings are Lean `String`s; character-level work is done on
  `String.data` (`List Char`) with executable helpers, because the engine's
  logic is substring search, whitespace splitting and lowercasing.
* Python `float` arithmetic (fractional domain weights, percentages) is
  modelled exactly over `ℚ`; `round(x, 1)` is modelled as
  `round1 x = round (10 * x) / 10`.  None of the claims checked here
  depends on binary floating-point rounding error or on Python's
  round-half-to-even tie rule (no input considered hits a tie).
* Python dicts that the engine builds are association lists with
  overwrite-on-insert (`dictInsert`), preserving insertion order exactly as
  CPython dicts do; `defaultdict(float)` accumulation is `upsert`.
* The `ConferenceCache` collaborator is a parameter of the `Engine`
  structure (a function `String → Option ConfResult`); every theorem about
  the aggregation pipeline is proved for an arbitrary such function, hence
  holds for the concrete cache.
-/

/-! ## Character and string helpers (executable stand-ins for Python's
`in`, `str.lower`, `str.strip`, `str.split`, and `re` word boundaries) -/

/-- Python word characters for `\b` (`\w` = alphanumeric or underscore;
the engine's inputs are ASCII). -/
def isWordChar (c : Char) : Bool :=
  c.isAlpha || c.isDigit || c == '_'

/-- Lowercase a character list (Python `str.lower` on ASCII data). -/
def lowerL (l : List Char) : List Char :=
  l.map Char.toLower

/-- Python `str.strip()` on a character list. -/
def trimL (l : List Char) : List Char :=
  ((l.dropWhile Char.isWhitespace).reverse.dropWhile Char.isWhitespace).reverse

/-- Whether `sub` occurs contiguously inside `hay` (Python `sub in hay`). -/
def subOccurs (sub : List Char) : List Char → Bool
  | [] => sub.isEmpty
  | l@(_ :: rest) => sub.isPrefixOf l || subOccurs sub rest

/-- Python `needle in hay` on strings. -/
def containsStr (hay needle : String) : Bool :=
  subOccurs needle.data hay.data

/-- Pattern `\b` between an optional previous character and an optional next
character: word-character-ness differs (string edges count as non-word). -/
def isBoundary (prev next : Option Char) : Bool :=
  (match prev with | none => false | some c => isWordChar c) !=
  (match next with | none => false | some c => isWordChar c)

/-- Whether `key` matches at the head of `text` with `\b` on both sides, `prev`
being the character just before `text` (Python `re.search(r'\bKEY\b', ...)`
restricted to one position). -/
def wordMatchAt (key : List Char) (prev : Option Char) (text : List Char) : Bool :=
  isBoundary prev key.head? &&
  key.isPrefixOf text &&
  isBoundary (key.getLast?) ((text.drop key.length).head?)

/-- Scan `text` for a `\b key \b` occurrence (Python
`re.search(r'\b' + re.escape(key) + r'\b', text)` for non-empty `key`). -/
def wordSearchAux (key : List Char) (prev : Option Char) : List Char → Bool
  | [] => false
  | c :: cs => wordMatchAt key prev (c :: cs) || wordSearchAux key (some c) cs

/-- Whole-word occurrence of `key` in `text`. -/
def wordSearch (key text : List Char) : Bool :=
  wordSearchAux key none text

/-- Python `str.split()` (split on whitespace runs, no empty tokens). -/
def splitWSAux : List Char → List Char → List String
  | cur, [] => if cur.isEmpty then [] else [String.mk cur.reverse]
  | cur, c :: cs =>
    if c.isWhitespace then
      if cur.isEmpty then splitWSAux [] cs
      else String.mk cur.reverse :: splitWSAux [] cs
    else splitWSAux (c :: cur) cs

/-- Python `s.split()` on a string. -/
def splitWS (s : String) : List String :=
  splitWSAux [] s.data

/-- Python `round(x, 1)` over exact rationals. -/
def round1 (x : ℚ) : ℚ :=
  (round (10 * x) : ℤ) / 10

/-! ## CitationMetrics: `_calculate_h_index` (analysis_engine.py:947-956) -/

/-- Embeds `sorted(citations, reverse=True)`. -/
def sortDesc (citations : List ℕ) : List ℕ :=
  List.insertionSort (· ≥ ·) citations

/-- The `for i, citation_count in enumerate(citations): if citation_count >=
i + 1: h_index = i + 1 else: break` loop; the accumulator is the current
`h_index`, which always equals the number of entries accepted so far. -/
def hIndexAux : List ℕ → ℕ → ℕ
  | [], h => h
  | c :: rest, h => if h + 1 ≤ c then hIndexAux rest (h + 1) else h

/-- Embeds `_calculate_h_index`. -/
def calculateHIndex (citations : List ℕ) : ℕ :=
  hIndexAux (sortDesc citations) 0

lemma hIndexAux_ge (l : List ℕ) (n : ℕ) : n ≤ hIndexAux l n := by
  induction l generalizing n with
  | nil => simp [hIndexAux]
  | cons c rest ih =>
    simp only [hIndexAux]
    split
    · exact le_trans (Nat.le_succ n) (ih (n + 1))
    · exact le_refl n

lemma hIndexAux_sound (l : List ℕ) (n : ℕ) :
    hIndexAux l n = n ∨
      (n < hIndexAux l n ∧ hIndexAux l n - n ≤ l.length ∧
        hIndexAux l n ≤ l.getD (hIndexAux l n - n - 1) 0) := by
  induction l generalizing n with
  | nil => exact Or.inl rfl
  | cons c rest ih =>
    simp only [hIndexAux]
    split
    · rename_i hc
      rcases ih (n + 1) with heq | ⟨h1, h2, h3⟩
      · refine Or.inr ?_
        rw [heq]
        refine ⟨Nat.lt_succ_self n, by simp, ?_⟩
        have : n + 1 - n - 1 = 0 := by omega
        rw [this, List.getD_cons_zero]
        exact hc
      · refine Or.inr ⟨by omega, by simp; omega, ?_⟩
        have hrw : hIndexAux rest (n + 1) - n - 1 =
            (hIndexAux rest (n + 1) - (n + 1) - 1) + 1 := by omega
        rw [hrw, List.getD_cons_succ]
        exact h3
    · exact Or.inl rfl

lemma getD_mem_of_lt (l : List ℕ) (i : ℕ) (h : i < l.length) :
    l.getD i 0 ∈ l := by
  induction l generalizing i with
  | nil => simp at h
  | cons c rest ih =>
    cases i with
    | zero => simp
    | succ j =>
      rw [List.getD_cons_succ]
      exact List.mem_cons_of_mem _ (ih j (by simpa using h))

lemma hIndexAux_complete (l : List ℕ) (hs : l.Pairwise (· ≥ ·)) (n k : ℕ)
    (h1 : n < k) (h2 : k - n ≤ l.length) (h3 : k ≤ l.getD (k - n - 1) 0) :
    k ≤ hIndexAux l n := by
  induction l generalizing n with
  | nil => simp at h2; omega
  | cons c rest ih =>
    rcases List.pairwise_cons.mp hs with ⟨hc, hrest⟩
    simp only [hIndexAux]
    split
    · rename_i hcond
      by_cases hk : k = n + 1
      · subst hk
        exact hIndexAux_ge rest (n + 1)
      · have hk2 : n + 1 < k := by omega
        have hrw : k - n - 1 = (k - (n + 1) - 1) + 1 := by omega
        rw [hrw, List.getD_cons_succ] at h3
        refine ih hrest (n + 1) hk2 ?_ h3
        simp at h2
        omega
    · rename_i hcond
      exfalso
      by_cases hk : k = n + 1
      · subst hk
        have hz : n + 1 - n - 1 = 0 := by omega
        rw [hz, List.getD_cons_zero] at h3
        omega
      · have hk2 : n + 1 < k := by omega
        have hrw : k - n - 1 = (k - n - 2) + 1 := by omega
        rw [hrw, List.getD_cons_succ] at h3
        have hlen : k - n - 2 < rest.length := by
          simp at h2
          omega
        have hmem := getD_mem_of_lt rest (k - n - 2) hlen
        have := hc _ hmem
        omega

/-- C3. `_calculate_h_index` returns the largest 1-indexed rank `h` whose
descending-sorted citation count is at least `h` (0 when none exists), and
matches the spec's three examples. -/
theorem c3_h_index (cs : List ℕ) :
    (calculateHIndex cs = 0 ∨
      (1 ≤ calculateHIndex cs ∧ calculateHIndex cs ≤ (sortDesc cs).length ∧
        calculateHIndex cs ≤ (sortDesc cs).getD (calculateHIndex cs - 1) 0)) ∧
    (∀ k, 1 ≤ k → k ≤ (sortDesc cs).length →
      k ≤ (sortDesc cs).getD (k - 1) 0 → k ≤ calculateHIndex cs) ∧
    calculateHIndex [10, 8, 5, 4, 3] = 4 ∧
    calculateHIndex [] = 0 ∧
    calculateHIndex [0, 0, 0] = 0 := by
  refine ⟨?_, ?_, by decide, by decide, by decide⟩
  · have h := hIndexAux_sound (sortDesc cs) 0
    rcases h with h | ⟨h1, h2, h3⟩
    · exact Or.inl h
    · exact Or.inr ⟨h1, by simpa using h2, by simpa using h3⟩
  · intro k hk1 hk2 hk3
    have hsorted : (sortDesc cs).Pairwise (· ≥ ·) :=
      List.sorted_insertionSort (· ≥ ·) cs
    exact hIndexAux_complete (sortDesc cs) hsorted 0 k (by omega)
      (by simpa using hk2) (by simpa using hk3)

/-- Witness for C3 at the spec's own example list. -/
theorem c3_h_index_witness : 4 ≤ calculateHIndex [10, 8, 5, 4, 3] :=
  (c3_h_index [10, 8, 5, 4, 3]).2.1 4 (by decide) (by decide) (by decide)

/-! ## VenueRegistry: `_add_critical_journals` (analysis_engine.py:380-429)
and the construction order of `_load_journal_classifications` (93-109). -/

/-- The curated `critical_journals` table (analysis_engine.py:382-418),
in source order. -/
def criticalJournals : List (String × String) := [
  ("ieee transactions on pattern analysis and machine intelligence", "Computer Science and AI"),
  ("ieee trans pattern anal mach intell", "Computer Science and AI"),
  ("ieee trans. pattern anal. mach. intell.", "Computer Science and AI"),
  ("tpami", "Computer Science and AI"),
  ("pattern analysis and machine intelligence", "Computer Science and AI"),
  ("journal of machine learning research", "Computer Science and AI"),
  ("jmlr", "Computer Science and AI"),
  ("machine learning", "Computer Science and AI"),
  ("neural networks", "Computer Science and AI"),
  ("artificial intelligence", "Computer Science and AI"),
  ("pattern recognition", "Computer Science and AI"),
  ("ieee transactions on image processing", "Computer Science and AI"),
  ("ieee transactions on neural networks and learning systems", "Computer Science and AI"),
  ("international journal of computer vision", "Computer Science and AI"),
  ("ijcv", "Computer Science and AI"),
  ("computer vision and image understanding", "Computer Science and AI"),
  ("journal of artificial intelligence research", "Computer Science and AI"),
  ("jair", "Computer Science and AI"),
  ("communications of the acm", "Computer Science and AI"),
  ("acm computing surveys", "Computer Science and AI"),
  ("ieee transactions on computers", "Computer Science and AI"),
  ("ieee transactions on software engineering", "Computer Science and AI"),
  ("acm transactions on graphics", "Computer Science and AI"),
  ("ieee computer", "Computer Science and AI"),
  ("journal of the american statistical association", "Statistics and Probability"),
  ("jasa", "Statistics and Probability"),
  ("biometrika", "Statistics and Probability"),
  ("annals of statistics", "Statistics and Probability"),
  ("journal of the royal statistical society", "Statistics and Probability"),
  ("statistical science", "Statistics and Probability")]

/-- CPython dict assignment `d[k] = v`: overwrite the (unique) existing
binding in place, else append a new binding. -/
def dictInsert : List (String × List String) → String → List String →
    List (String × List String)
  | [], k, v => [(k, v)]
  | (k', v') :: rest, k, v =>
    if k' = k then (k, v) :: rest else (k', v') :: dictInsert rest k v

/-- Embeds `_add_critical_journals`: `for journal, classification in
critical_journals.items(): self.journal_classifications[journal] =
[classification]`, applied to an arbitrary prior registry state. -/
def addCriticalJournals (d : List (String × List String)) :
    List (String × List String) :=
  criticalJournals.foldl (fun d kv => dictInsert d kv.1 [kv.2]) d

/-- Embeds `_load_journal_classifications`: the bulk SCImago load (or, on failure,
the fallback table) produces some registry state `base`; critical journals
are added last in both branches (analysis_engine.py:100, 108). -/
def loadJournalClassifications (base : List (String × List String)) :
    List (String × List String) :=
  addCriticalJournals base

lemma lookup_cons_unfold {β : Type} (k k' : String) (v' : β)
    (rest : List (String × β)) :
    List.lookup k ((k', v') :: rest) =
      if k = k' then some v' else List.lookup k rest := by
  by_cases h : k = k'
  · simp [List.lookup, h]
  · simp [List.lookup, h, beq_eq_false_iff_ne.mpr h]

lemma lookup_dictInsert_self (d : List (String × List String)) (k : String)
    (v : List String) : List.lookup k (dictInsert d k v) = some v := by
  induction d with
  | nil => simp [dictInsert, lookup_cons_unfold]
  | cons kv rest ih =>
    obtain ⟨k', v'⟩ := kv
    simp only [dictInsert]
    split
    · simp [lookup_cons_unfold]
    · rename_i hne
      rw [lookup_cons_unfold, if_neg (fun h => hne h.symm)]
      exact ih

lemma lookup_dictInsert_other (d : List (String × List String))
    (k k' : String) (v : List String) (h : k ≠ k') :
    List.lookup k (dictInsert d k' v) = List.lookup k d := by
  induction d with
  | nil => simp [dictInsert, lookup_cons_unfold, h]
  | cons kv rest ih =>
    obtain ⟨k₀, v₀⟩ := kv
    simp only [dictInsert]
    split
    · rename_i heq
      subst heq
      rw [lookup_cons_unfold, lookup_cons_unfold, if_neg h, if_neg h]
    · rw [lookup_cons_unfold, lookup_cons_unfold]
      split
      · rfl
      · exact ih

lemma lookup_foldl_of_not_mem (t : List (String × String))
    (d : List (String × List String)) (k : String)
    (h : k ∉ t.map Prod.fst) :
    List.lookup k (t.foldl (fun d kv => dictInsert d kv.1 [kv.2]) d) =
      List.lookup k d := by
  induction t generalizing d with
  | nil => rfl
  | cons kv rest ih =>
    simp only [List.foldl_cons]
    have h1 : k ∉ rest.map Prod.fst := by
      simp only [List.map_cons, List.mem_cons] at h
      tauto
    have h2 : k ≠ kv.1 := by
      simp only [List.map_cons, List.mem_cons] at h
      tauto
    rw [ih _ h1, lookup_dictInsert_other _ _ _ _ h2]

lemma lookup_foldl_of_mem (t : List (String × String))
    (d : List (String × List String)) (k : String) (v : String)
    (hmem : (k, v) ∈ t) (hnd : (t.map Prod.fst).Nodup) :
    List.lookup k (t.foldl (fun d kv => dictInsert d kv.1 [kv.2]) d) =
      some [v] := by
  induction t generalizing d with
  | nil => simp at hmem
  | cons kv rest ih =>
    simp only [List.map_cons, List.nodup_cons] at hnd
    rcases List.mem_cons.mp hmem with heq | hrest
    · subst heq
      simp only [List.foldl_cons]
      rw [lookup_foldl_of_not_mem _ _ _ hnd.1, lookup_dictInsert_self]
    · exact ih _ hrest hnd.2

/-- C8. After registry construction — regardless of what the bulk load or
the fallback produced as `base` — every curated critical-journal key maps
to exactly its curated classification. -/
theorem c8_critical_overrides (base : List (String × List String))
    (k v : String) (h : (k, v) ∈ criticalJournals) :
    List.lookup k (loadJournalClassifications base) = some [v] :=
  lookup_foldl_of_mem criticalJournals base k v h (by decide)

/-- Witness for C8: the venue key for IEEE Trans. Pattern Anal. Mach.
Intell. maps to Computer Science and AI over an arbitrary (here: empty)
bulk-loaded base. -/
theorem c8_critical_overrides_witness :
    List.lookup "ieee trans. pattern anal. mach. intell."
      (loadJournalClassifications []) = some ["Computer Science and AI"] :=
  c8_critical_overrides [] _ _ (by decide)

/-! ## Publication records (the engine's per-paper input dict). -/

/-- One raw publication record: `{title, authors, venue, year,
citation_count}`. -/
structure Publication where
  title : String
  authors : String
  venue : String
  year : Option Int
  citation_count : ℕ

/-! ## KeywordClassifier: `_classify_by_keywords` (analysis_engine.py:
1387-1446) and the `keyword_domains` table (33-91). -/

/-- Embeds `self.keyword_domains` (analysis_engine.py:33-91), verbatim, in source
order (including the duplicated entries `conservation` and `survey`). -/
def keywordDomains : List (String × List String) := [
  ("Statistics and Probability", [
    "statistical", "statistics", "probability", "inference", "estimation",
    "hypothesis", "regression", "anova", "bayesian", "frequentist",
    "multivariate", "correlation", "variance", "distribution", "bootstrap",
    "monte carlo", "sampling", "likelihood", "significance", "p-value",
    "change-point", "change point", "high-dimensional", "dimensional",
    "homogeneity", "detection", "test", "testing", "linear models",
    "differential abundance", "compositional data", "linda", "asymptotic",
    "limit theorem", "martingale", "stochastic", "random process",
    "time series analysis", "statistical method", "statistical theory",
    "confidence interval", "hypothesis test", "nonparametric",
    "semiparametric", "wild bootstrap", "spectral theory"]),
  ("Applied Mathematics", [
    "mathematics", "mathematical", "theorem", "proof", "algebra", "geometry",
    "topology", "analysis", "differential equations", "partial differential",
    "ordinary differential", "calculus", "optimization", "numerical analysis",
    "linear algebra", "abstract algebra", "number theory", "combinatorics",
    "graph theory", "logic", "set theory", "measure theory", "functional analysis",
    "real analysis", "complex analysis", "harmonic analysis", "approximation theory",
    "discrete mathematics", "applied mathematics", "pure mathematics"]),
  ("Computer Science and AI", [
    "machine learning", "deep learning", "neural network", "artificial intelligence",
    "classification", "clustering", "supervised", "unsupervised", "reinforcement",
    "feature selection", "random forest", "svm", "support vector", "gradient",
    "algorithm", "training", "prediction", "tensorflow", "pytorch",
    "computer vision", "pattern recognition", "image processing", "image analysis",
    "object detection", "face recognition", "visual", "image classification",
    "software", "programming", "computer science"]),
  ("Bioinformatics and Genetics", [
    "bioinformatics", "genomics", "proteomics", "microbiome", "rna", "dna",
    "gene", "genome", "sequencing", "gene expression", "biological data",
    "molecular biology", "biomarker", "pathway", "transcriptome", "chromosome",
    "mutation", "variant", "snp", "genome-wide", "phylogenetic"]),
  ("Environmental and Earth Sciences", [
    "environmental", "ecology", "climate", "ecosystem", "biodiversity",
    "conservation", "sustainability", "pollution", "carbon", "species",
    "ecological", "habitat", "conservation", "earth sciences", "geology"]),
  ("Economics and Finance", [
    "econometrics", "economics", "financial markets", "economic growth", "gdp",
    "economic policy", "finance", "financial crisis", "stock market", "trading",
    "investment", "portfolio", "asset pricing", "monetary policy", "fiscal policy",
    "labor economics", "development economics", "international trade"]),
  ("Social Sciences", [
    "psychology", "sociology", "survey", "social", "behavioral",
    "demographic", "population", "policy", "human", "community", "survey",
    "education", "anthropology", "political science"]),
  ("Medicine and Health Sciences", [
    "medicine", "medical", "health", "clinical", "epidemiology",
    "public health", "biomedical", "therapeutic", "treatment"])]

/-- Embeds `cs_ai_indicators` (analysis_engine.py:1408-1412). -/
def csAiIndicators : List String := [
  "computer vision", "pattern recognition", "machine learning", "deep learning",
  "neural network", "artificial intelligence", "image processing", "computer graphics",
  "robotics", "natural language processing", "computer science"]

/-- Mathematics venue-priority terms (analysis_engine.py:1394-1397). -/
def mathVenueTerms : List String := [
  "differential equations", "mathematical analysis", "pure mathematics",
  "applied mathematics", "mathematics", "mathematical"]

/-- Statistics venue-priority terms (analysis_engine.py:1401-1404). -/
def statVenueTerms : List String := [
  "statistics", "statistical", "probability", "stochastic",
  "bernoulli", "biometrika", "biostatistics"]

/-- One keyword's score contribution: whole-word match for keywords of ≤3
characters, plain substring otherwise; a hit is worth
`len(keyword.split())` (analysis_engine.py:1421-1429). -/
def keywordHit (text : List Char) (kw : String) : ℕ :=
  if kw.length ≤ 3 then
    if wordSearch kw.data text then (splitWS kw).length else 0
  else
    if subOccurs kw.data text then (splitWS kw).length else 0

/-- The `for keyword in keywords: score += ...` accumulation; the raw total
is an integer before any boost/penalty multiplier is applied. -/
def keywordBaseScore (text : List Char) (kws : List String) : ℕ :=
  (kws.map (keywordHit text)).sum

/-- Per-domain raw keyword scores in table order. -/
def baseScores (text : List Char) : List (String × ℕ) :=
  keywordDomains.map (fun dk => (dk.1, keywordBaseScore text dk.2))

/-- The boost/penalty step (analysis_engine.py:1431-1437): `score *= 2`
when the domain literal is `'Machine Learning & AI'` with a positive score
and CS/AI indicators fired; `score *= 0.2` when the domain literal is
`'Statistics & Probability'` and CS/AI indicators fired. -/
def adjustedScore (isCsAi : Bool) (domain : String) (base : ℕ) : ℚ :=
  if isCsAi && domain == "Machine Learning & AI" && decide (0 < base) then
    (base : ℚ) * 2
  else if isCsAi && domain == "Statistics & Probability" then
    (base : ℚ) * (2 / 10)
  else (base : ℚ)

/-- Embeds `paper_scores`: domains whose (adjusted) score is positive, in table
order (analysis_engine.py:1439-1440). -/
def paperScores (isCsAi : Bool) (text : List Char) : List (String × ℚ) :=
  ((baseScores text).map (fun p => (p.1, adjustedScore isCsAi p.1 p.2))).filter
    (fun p => decide (0 < p.2))

/-- Python `max(items, key=lambda x: x[1])`: first maximum wins. -/
def maxBySnd : (String × ℚ) → List (String × ℚ) → (String × ℚ)
  | best, [] => best
  | best, p :: rest => maxBySnd (if best.2 < p.2 then p else best) rest

/-- Embeds `_classify_by_keywords` (analysis_engine.py:1387-1446). -/
def classifyByKeywords (pub : Publication) : Option String :=
  let title := lowerL pub.title.data
  let venue := lowerL pub.venue.data
  let text := title ++ [' '] ++ venue
  if !venue.isEmpty && mathVenueTerms.any (fun t => subOccurs t.data venue) &&
      !subOccurs "statistics".data venue then
    some "Mathematics"
  else if !venue.isEmpty && statVenueTerms.any (fun t => subOccurs t.data venue) then
    some "Statistics & Probability"
  else
    let isCsAi := csAiIndicators.any (fun t => subOccurs t.data text)
    match paperScores isCsAi text with
    | [] => none
    | s :: rest => some (maxBySnd s rest).1

/-- The failing input for C6: a keyword-fallback paper (no venue) whose
title contains the strong CS/AI terms "deep learning" and "computer
vision" together with statistics vocabulary. -/
def pubC6 : Publication :=
  ⟨"Deep Learning Computer Vision Hypothesis Testing Inference Estimation",
   "", "", none, 0⟩

/-- The combined lowercased `title + " " + venue` text for `pubC6`. -/
def textC6 : List Char := lowerL pubC6.title.data ++ [' '] ++ lowerL pubC6.venue.data

/-- C6 (code bug, evaluated at the failing input).  The CS/AI indicator set
fires on this text, the raw keyword scores are 7 for Statistics and
Probability and 4 for Computer Science and AI, and `_classify_by_keywords`
returns the Statistics domain: the ×2 boost and ×0.2 penalty of
analysis_engine.py:1431-1437 never apply, because they compare the domain
name against `'Machine Learning & AI'` and `'Statistics & Probability'`,
neither of which is a key of `keyword_domains` (whose keys are
`'Computer Science and AI'` and `'Statistics and Probability'`).  Under the
claimed scoring (stats × 0.2 = 1.4, AI/ML × 2 = 8) the arg-max would be the
AI/ML domain instead. -/
theorem c6_keyword_boost_dead : (csAiIndicators.any (fun t => subOccurs t.data textC6)) = true ∧
    baseScores textC6 = [
      ("Statistics and Probability", 7), ("Applied Mathematics", 0),
      ("Computer Science and AI", 4), ("Bioinformatics and Genetics", 0),
      ("Environmental and Earth Sciences", 0), ("Economics and Finance", 0),
      ("Social Sciences", 0), ("Medicine and Health Sciences", 0)] ∧
    classifyByKeywords pubC6 = some "Statistics and Probability" := by
  refine ⟨by decide, by decide, ?_⟩
  have hbase : baseScores textC6 = [
      ("Statistics and Probability", 7), ("Applied Mathematics", 0),
      ("Computer Science and AI", 4), ("Bioinformatics and Genetics", 0),
      ("Environmental and Earth Sciences", 0), ("Economics and Finance", 0),
      ("Social Sciences", 0), ("Medicine and Health Sciences", 0)] := by decide
  have hps : paperScores true textC6 =
      [("Statistics and Probability", ((7 : ℕ) : ℚ)),
       ("Computer Science and AI", ((4 : ℕ) : ℚ))] := by
    simp [paperScores, hbase, adjustedScore, Nat.cast_pos]
  have hstep : classifyByKeywords pubC6 =
      (match paperScores true textC6 with
       | [] => none
       | s :: rest => some (maxBySnd s rest).1) := rfl
  rw [hstep, hps]
  norm_num [maxBySnd]

/-! ## VenueResolver: `_find_best_journal_match` (analysis_engine.py:
275-348) and `_get_special_venue_patterns` (350-378). -/

/-- One scored match candidate, the tuple
`(score, matched-key length, canonical key, domain list, match-type tag)`.
-/
structure MatchCandidate where
  score : ℕ
  length : ℕ
  name : String
  domains : List String
  tag : String
deriving DecidableEq

/-- Embeds `venue_clean`: `(`, `)`, `,`, `.` replaced by spaces
(analysis_engine.py:283-284); the source also collapses whitespace runs,
which is invisible to the `.split()` that is this value's only consumer. -/
def venueCleanChars (venue : List Char) : List Char :=
  venue.map (fun c => if c == '(' || c == ')' || c == ',' || c == '.' then ' ' else c)

/-- Embeds `set(w for w in s.split() if len(w) > 2)`; a deduplicated word list
stands in for the Python set (only membership and cardinality are used). -/
def significantWords (s : List Char) : List String :=
  ((splitWSAux [] s).filter (fun w => 2 < w.length)).dedup

/-- The generic words excluded from `meaningful_matches`
(analysis_engine.py:322). -/
def genericWords : List String :=
  ["journal", "of", "the", "and", "for", "in", "on", "international",
   "society", "research"]

/-- Embeds `_get_special_venue_patterns` (analysis_engine.py:350-378):
`(pattern, domains, matched_name)` triples. -/
def specialVenuePatterns : List (String × List String × String) := [
  ("royal statistical society", ["Statistics and Probability"], "journal of the royal statistical society"),
  ("american statistical association", ["Statistics and Probability"], "journal of the american statistical association"),
  ("biometrika", ["Statistics and Probability"], "biometrika"),
  ("statistica sinica", ["Statistics and Probability"], "statistica sinica"),
  ("annals of statistics", ["Statistics and Probability"], "annals of statistics"),
  ("journal of econometrics", ["Statistics and Probability"], "journal of econometrics"),
  ("econometric theory", ["Statistics and Probability"], "econometric theory"),
  ("bernoulli", ["Statistics and Probability"], "bernoulli"),
  ("arxiv", ["Preprints & Working Papers"], "arxiv"),
  ("biorxiv", ["Preprints & Working Papers"], "biorxiv"),
  ("medrxiv", ["Preprints & Working Papers"], "medrxiv"),
  ("ssrn", ["Preprints & Working Papers"], "ssrn"),
  ("neurips", ["Computer Science and AI"], "neurips"),
  ("nips", ["Computer Science and AI"], "neurips"),
  ("icml", ["Computer Science and AI"], "icml"),
  ("iclr", ["Computer Science and AI"], "iclr"),
  ("cvpr", ["Computer Science and AI"], "cvpr"),
  ("iccv", ["Computer Science and AI"], "iccv"),
  ("ijcai", ["Computer Science and AI"], "ijcai"),
  ("aaai", ["Computer Science and AI"], "aaai")]

/-- STEP 1 (analysis_engine.py:288-295): direct substring matches, score
100 (key inside venue, key length ≥ 10) or 95 (venue inside key, venue
length ≥ 10), in registry order. -/
def step1Candidates (jc : List (String × List String)) (venue : String) :
    List MatchCandidate :=
  jc.foldr (fun kv acc =>
    if subOccurs kv.1.data venue.data && decide (10 ≤ kv.1.length) then
      ⟨100, kv.1.length, kv.1, kv.2, "exact_substring"⟩ :: acc
    else if subOccurs venue.data kv.1.data && decide (10 ≤ venue.length) then
      ⟨95, venue.length, kv.1, kv.2, "reverse_substring"⟩ :: acc
    else acc) []

/-- STEP 2 (analysis_engine.py:297-302): whole-word acronym matches for
keys of ≤ 8 characters, score 90 (`re.IGNORECASE`: the key is lowercased,
the venue is already lowercase at the call site). -/
def step2Candidates (jc : List (String × List String)) (venue : String) :
    List MatchCandidate :=
  jc.foldr (fun kv acc =>
    if decide (kv.1.length ≤ 8) && wordSearch (lowerL kv.1.data) venue.data then
      ⟨90, kv.1.length, kv.1, kv.2, "acronym"⟩ :: acc
    else acc) []

/-- STEP 3 per-entry test (analysis_engine.py:307-326). -/
def step3Candidate (vw : List String) (kv : String × List String) :
    Option MatchCandidate :=
  if 15 ≤ kv.1.length then
    let jw := significantWords kv.1.data
    if 3 ≤ jw.length then
      let common := jw.filter (fun w => vw.contains w)
      let ratio : ℚ := (common.length : ℚ) / (jw.length : ℚ)
      if (8/10 ≤ ratio ∧ 3 ≤ common.length) ∨ (9/10 ≤ ratio ∧ 2 ≤ common.length) then
        let meaningful := common.filter (fun w => !genericWords.contains w)
        if 2 ≤ meaningful.length then
          some ⟨60 + (⌊ratio * 30⌋).toNat, kv.1.length, kv.1, kv.2, "word_match"⟩
        else none
      else none
    else none
  else none

/-- STEP 3 (analysis_engine.py:304-326): word-overlap matches. -/
def step3Candidates (jc : List (String × List String)) (venue : String) :
    List MatchCandidate :=
  let vw := significantWords (venueCleanChars venue.data)
  jc.foldr (fun kv acc =>
    match step3Candidate vw kv with
    | some c => c :: acc
    | none => acc) []

/-- STEP 4 (analysis_engine.py:328-332): special substring patterns,
score 85. -/
def step4Candidates (venue : String) : List MatchCandidate :=
  specialVenuePatterns.foldr (fun p acc =>
    if subOccurs p.1.data venue.data then
      ⟨85, p.1.length, p.2.2, p.2.1, "special_pattern"⟩ :: acc
    else acc) []

/-- All candidates produced by `_find_best_journal_match`, in production
order. -/
def journalMatchCandidates (jc : List (String × List String))
    (venue : String) : List MatchCandidate :=
  step1Candidates jc venue ++ step2Candidates jc venue ++
    step3Candidates jc venue ++ step4Candidates venue

/-- Whether `b` strictly beats `a` on `(score, length)`. -/
def beatsCandidate (a b : MatchCandidate) : Bool :=
  decide (a.score < b.score) ||
    (decide (a.score = b.score) && decide (a.length < b.length))

/-- STEP 5 head of the stable descending sort on `(score, length)`
(analysis_engine.py:335-339): the earliest candidate with the
lexicographically greatest key. -/
def pickBest : MatchCandidate → List MatchCandidate → MatchCandidate
  | best, [] => best
  | best, c :: rest => pickBest (if beatsCandidate best c then c else best) rest

/-- Embeds `_find_best_journal_match` (analysis_engine.py:275-348): highest-scored
candidate, accepted only with score ≥ 80. -/
def findBestJournalMatch (jc : List (String × List String))
    (venue : String) : Option (List String × String) :=
  match journalMatchCandidates jc venue with
  | [] => none
  | c :: rest =>
    let best := pickBest c rest
    if 80 ≤ best.score then some (best.domains, best.name) else none

lemma mem_step1_of_cond (jc : List (String × List String)) (venue : String)
    (key : String) (ds : List String) (hmem : (key, ds) ∈ jc)
    (c : MatchCandidate)
    (hc : (subOccurs key.data venue.data && decide (10 ≤ key.length)) = true →
      c = ⟨100, key.length, key, ds, "exact_substring"⟩)
    (hc2 : (subOccurs key.data venue.data && decide (10 ≤ key.length)) = false →
      (subOccurs venue.data key.data && decide (10 ≤ venue.length)) = true →
      c = ⟨95, venue.length, key, ds, "reverse_substring"⟩)
    (hone : (subOccurs key.data venue.data && decide (10 ≤ key.length)) = true ∨
      (subOccurs venue.data key.data && decide (10 ≤ venue.length)) = true) :
    c ∈ step1Candidates jc venue := by
  induction jc with
  | nil => simp at hmem
  | cons kv rest ih =>
    simp only [step1Candidates, List.foldr_cons]
    rcases List.mem_cons.mp hmem with heq | hrest
    · subst heq
      rcases Bool.eq_false_or_eq_true
          (subOccurs key.data venue.data && decide (10 ≤ key.length)) with ht | hf
      · rw [ht, if_pos rfl, hc ht]
        exact List.mem_cons_self _ _
      · rcases hone with h1 | h2
        · rw [hf] at h1
          exact absurd h1 (by simp)
        · rw [hf, if_neg (by simp), h2, if_pos rfl, hc2 hf h2]
          exact List.mem_cons_self _ _
    · have htail := ih hrest
      split
      · exact List.mem_cons_of_mem _ htail
      · split
        · exact List.mem_cons_of_mem _ htail
        · exact htail

/-- C7 (amended).  In STEP 1 of `_find_best_journal_match`, a score-100
candidate is produced whenever a registry key of length ≥ 10 occurs inside
the venue; a score-95 candidate is produced whenever the venue has length
≥ 10, occurs inside the key, and the score-100 test for that key failed
(the 95 branch is an `elif`, and it also requires the 10-character minimum
on the venue, which the original claim omitted). -/
theorem c7_substring_candidates (jc : List (String × List String))
    (venue key : String) (ds : List String) (hmem : (key, ds) ∈ jc) :
    (subOccurs key.data venue.data = true → 10 ≤ key.length →
      (⟨100, key.length, key, ds, "exact_substring"⟩ : MatchCandidate) ∈
        journalMatchCandidates jc venue) ∧
    (¬ (subOccurs key.data venue.data = true ∧ 10 ≤ key.length) →
      subOccurs venue.data key.data = true → 10 ≤ venue.length →
      (⟨95, venue.length, key, ds, "reverse_substring"⟩ : MatchCandidate) ∈
        journalMatchCandidates jc venue) := by
  constructor
  · intro h1 h2
    have hmem1 : (⟨100, key.length, key, ds, "exact_substring"⟩ : MatchCandidate) ∈
        step1Candidates jc venue := by
      refine mem_step1_of_cond jc venue key ds hmem _ (fun _ => rfl) ?_ ?_
      · intro hf _
        rw [h1] at hf
        simp [h2] at hf
      · left
        simp [h1, h2]
    exact List.mem_append_left _ (List.mem_append_left _ (List.mem_append_left _ hmem1))
  · intro hno h1 h2
    have hf : (subOccurs key.data venue.data && decide (10 ≤ key.length)) = false := by
      rcases Bool.eq_false_or_eq_true (subOccurs key.data venue.data) with h | h
      · have : ¬ 10 ≤ key.length := fun hlen => hno ⟨h, hlen⟩
        simp [this]
      · simp [h]
    have hmem1 : (⟨95, venue.length, key, ds, "reverse_substring"⟩ : MatchCandidate) ∈
        step1Candidates jc venue := by
      refine mem_step1_of_cond jc venue key ds hmem _ ?_ (fun _ _ => rfl) ?_
      · intro ht
        rw [ht] at hf
        exact absurd hf (by simp)
      · right
        simp [h1, h2]
    exact List.mem_append_left _ (List.mem_append_left _ (List.mem_append_left _ hmem1))

/-- Witness for C7: both branches exercised on concrete registries. -/
theorem c7_substring_candidates_witness :
    ((⟨100, 20, "annals of statistics", ["Statistics and Probability"],
        "exact_substring"⟩ : MatchCandidate) ∈
      journalMatchCandidates [("annals of statistics", ["Statistics and Probability"])]
        "the annals of statistics volume 42") ∧
    ((⟨95, 22, "annals of mathematical statistics", ["Statistics and Probability"],
        "reverse_substring"⟩ : MatchCandidate) ∈
      journalMatchCandidates [("annals of mathematical statistics", ["Statistics and Probability"])]
        "annals of mathematical") :=
  ⟨(c7_substring_candidates _ "the annals of statistics volume 42"
      "annals of statistics" _ (by decide)).1 (by decide) (by decide),
   (c7_substring_candidates _ "annals of mathematical"
      "annals of mathematical statistics" _ (by decide)).2
      (by decide) (by decide) (by decide)⟩

/-- Counterexample for C7 as stated: the venue `"annals"` occurs inside the
registry key `"annals of statistics"`, yet no candidate at all (in
particular no score-95 candidate) is produced, because the venue is shorter
than 10 characters. -/
theorem c7_short_venue_counterexample :
    subOccurs "annals".data "annals of statistics".data = true ∧
    journalMatchCandidates [("annals of statistics", ["Statistics and Probability"])]
      "annals" = [] := by
  constructor
  · decide
  · decide

/-! ## DomainAggregator: `_journal_based_classification`
(analysis_engine.py:1230-1341). -/

/-- A hit from `ConferenceCache.get_conference_classification`: the fields
of the returned dict that the aggregator reads. -/
structure ConfResult where
  domain : String
  name : String

/-- The analyzer state the aggregation pipeline reads: the conference
cache collaborator (kept abstract: every theorem below holds for any
lookup function) and the journal registry. -/
structure Engine where
  conf : String → Option ConfResult
  journal_classifications : List (String × List String)

/-- The per-publication domain resolution of
`_journal_based_classification` (analysis_engine.py:1235-1275):
conference registry first, then direct journal lookup, then fuzzy
matching, then keyword fallback; an unmatched paper gets no domains. -/
def paperDomains (e : Engine) (pub : Publication) : List String :=
  let venue := String.mk (trimL pub.venue.data)
  let venueDomains :=
    if venue ≠ "" then
      let vl := String.mk (lowerL venue.data)
      match e.conf vl with
      | some r => [r.domain]
      | none =>
        match List.lookup vl e.journal_classifications with
        | some ds => ds
        | none =>
          match findBestJournalMatch e.journal_classifications vl with
          | some (ds, _) => ds
          | none => []
    else []
  if venueDomains.isEmpty then
    match classifyByKeywords pub with
    | some d => [d]
    | none => []
  else venueDomains

/-- Embeds `defaultdict(float)` update `area_scores[domain] += w`. -/
def upsert : List (String × ℚ) → String → ℚ → List (String × ℚ)
  | [], d, w => [(d, w)]
  | (k, v) :: rest, d, w =>
    if k = d then (k, v + w) :: rest else (k, v) :: upsert rest d w

/-- Embeds `weight_per_domain = 1.0 / len(paper_domains)` followed by
`for domain in paper_domains: area_scores[domain] += weight_per_domain`
(analysis_engine.py:1305-1309). -/
def addDomainWeights (pd : List String) (scores : List (String × ℚ)) :
    List (String × ℚ) :=
  pd.foldl (fun sc d => upsert sc d (1 / (pd.length : ℚ))) scores

/-- One iteration of the aggregation loop, restricted to the
`area_scores` accumulator (`if paper_domains:` guard included). -/
def classifyStep (e : Engine) (scores : List (String × ℚ))
    (pub : Publication) : List (String × ℚ) :=
  let pd := paperDomains e pub
  if pd.isEmpty then scores else addDomainWeights pd scores

/-- The full `area_scores` accumulation over a publication list. -/
def areaScores (e : Engine) (pubs : List Publication) : List (String × ℚ) :=
  pubs.foldl (classifyStep e) []

/-- Embeds `sum(area_scores.values())`. -/
def sumVals (l : List (String × ℚ)) : ℚ :=
  (l.map Prod.snd).sum

/-- Embeds `area_scores[d]` with the defaultdict default 0. -/
def scoreOf (scores : List (String × ℚ)) (d : String) : ℚ :=
  match List.lookup d scores with
  | some v => v
  | none => 0

/-- Embeds `area_percentages` (analysis_engine.py:1312-1318): per-domain share of
the total weight, rounded to one decimal; empty when nothing was
classified.  (The source then sorts this dict by percentage for display,
which does not change the multiset of percentages.) -/
def areaPercentages (e : Engine) (pubs : List Publication) :
    List (String × ℚ) :=
  let scores := areaScores e pubs
  let total := sumVals scores
  if 0 < total then scores.map (fun p => (p.1, round1 (p.2 / total * 100)))
  else []

lemma sumVals_upsert (sc : List (String × ℚ)) (d : String) (w : ℚ) :
    sumVals (upsert sc d w) = sumVals sc + w := by
  induction sc with
  | nil => simp [upsert, sumVals]
  | cons kv rest ih =>
    obtain ⟨k, v⟩ := kv
    simp only [upsert]
    split
    · simp [sumVals]
      ring
    · simp only [sumVals, List.map_cons, List.sum_cons] at ih ⊢
      rw [ih]
      ring

lemma scoreOf_nil (d' : String) : scoreOf [] d' = 0 := rfl

lemma scoreOf_cons_unfold (k : String) (v : ℚ) (rest : List (String × ℚ))
    (d' : String) :
    scoreOf ((k, v) :: rest) d' = if d' = k then v else scoreOf rest d' := by
  unfold scoreOf
  rw [lookup_cons_unfold]
  by_cases hd : d' = k
  · rw [if_pos hd, if_pos hd]
  · rw [if_neg hd, if_neg hd]

lemma scoreOf_upsert (sc : List (String × ℚ)) (d d' : String) (w : ℚ) :
    scoreOf (upsert sc d w) d' = scoreOf sc d' + (if d' = d then w else 0) := by
  induction sc with
  | nil =>
    simp only [upsert, scoreOf_cons_unfold, scoreOf_nil]
    by_cases hd : d' = d
    · simp [hd]
    · simp [hd]
  | cons kv rest ih =>
    obtain ⟨k, v⟩ := kv
    simp only [upsert]
    split
    · rename_i hk
      subst hk
      rw [scoreOf_cons_unfold, scoreOf_cons_unfold]
      by_cases hd : d' = k
      · simp [hd]
      · simp [hd]
    · rename_i hk
      rw [scoreOf_cons_unfold, scoreOf_cons_unfold, ih]
      by_cases hd : d' = k
      · subst hd
        rw [if_pos rfl, if_pos rfl, if_neg hk]
        simp
      · simp [hd]

lemma sumVals_foldl_upsert (pd : List String) (w : ℚ) (sc : List (String × ℚ)) :
    sumVals (pd.foldl (fun sc d => upsert sc d w) sc) =
      sumVals sc + pd.length * w := by
  induction pd generalizing sc with
  | nil => simp
  | cons d rest ih =>
    simp only [List.foldl_cons, ih (upsert sc d w), sumVals_upsert,
      List.length_cons]
    push_cast
    ring

lemma scoreOf_foldl_upsert (pd : List String) (w : ℚ)
    (sc : List (String × ℚ)) (d' : String) :
    scoreOf (pd.foldl (fun sc d => upsert sc d w) sc) d' =
      scoreOf sc d' + (pd.count d' : ℚ) * w := by
  induction pd generalizing sc with
  | nil => simp
  | cons d rest ih =>
    simp only [List.foldl_cons, ih (upsert sc d w), scoreOf_upsert]
    by_cases hd : d' = d
    · subst hd
      simp [List.count_cons]
      ring
    · simp [List.count_cons, hd, Ne.symm hd]

/-- C1. In the aggregation pipeline, a publication with assigned domain
list `pd ≠ []` adds exactly total weight 1 to `area_scores`, and (when
`pd` has no duplicates, as every resolution path produces) each assigned
domain's score grows by exactly `1 / len(pd)`; a publication with no
assigned domain leaves `area_scores` untouched. -/
theorem c1_fractional_weights (e : Engine) (pub : Publication)
    (scores : List (String × ℚ)) :
    (paperDomains e pub = [] → classifyStep e scores pub = scores) ∧
    (paperDomains e pub ≠ [] →
      sumVals (classifyStep e scores pub) = sumVals scores + 1 ∧
      ((paperDomains e pub).Nodup → ∀ d ∈ paperDomains e pub,
        scoreOf (classifyStep e scores pub) d =
          scoreOf scores d + 1 / ((paperDomains e pub).length : ℚ))) := by
  constructor
  · intro h
    simp [classifyStep, h]
  · intro h
    have hne : ¬ (paperDomains e pub).isEmpty = true := by
      simpa [List.isEmpty_iff] using h
    have hlen : (0 : ℚ) < ((paperDomains e pub).length : ℚ) := by
      have : 0 < (paperDomains e pub).length := List.length_pos.mpr h
      exact_mod_cast this
    constructor
    · simp only [classifyStep, if_neg hne, addDomainWeights,
        sumVals_foldl_upsert]
      rw [mul_one_div, div_self (ne_of_gt hlen)]
    · intro hnd d hd
      simp only [classifyStep, if_neg hne, addDomainWeights,
        scoreOf_foldl_upsert]
      rw [List.count_eq_one_of_mem hnd hd]
      push_cast
      ring

/-- The concrete engine for the C1 witness: no conference hits, a
one-journal registry mapping to two domains. -/
def engineC1 : Engine :=
  ⟨fun _ => none, [("journal x", ["A", "B"])]⟩

/-- The concrete publication for the C1 witness. -/
def pubC1 : Publication := ⟨"t", "", "Journal X", none, 0⟩

/-- Witness for C1 on a concrete two-domain publication. -/
theorem c1_fractional_weights_witness :
    sumVals (classifyStep engineC1 [] pubC1) = sumVals [] + 1 ∧
    scoreOf (classifyStep engineC1 [] pubC1) "A" =
      scoreOf [] "A" + 1 / ((paperDomains engineC1 pubC1).length : ℚ) := by
  have h := (c1_fractional_weights engineC1 pubC1 []).2 (by decide)
  exact ⟨h.1, h.2 (by decide) "A" (by decide)⟩

lemma upsert_pos (sc : List (String × ℚ)) (d : String) (w : ℚ)
    (hw : 0 < w) (hsc : ∀ p ∈ sc, 0 < p.2) :
    ∀ p ∈ upsert sc d w, 0 < p.2 := by
  induction sc with
  | nil =>
    intro p hp
    simp only [upsert, List.mem_singleton] at hp
    subst hp
    exact hw
  | cons kv rest ih =>
    obtain ⟨k, v⟩ := kv
    intro p hp
    simp only [upsert] at hp
    split at hp
    · rcases List.mem_cons.mp hp with heq | hmem
      · subst heq
        have hv := hsc (k, v) (List.mem_cons_self _ _)
        simp only at hv
        simpa using add_pos hv hw
      · exact hsc p (List.mem_cons_of_mem _ hmem)
    · rcases List.mem_cons.mp hp with heq | hmem
      · subst heq
        exact hsc (k, v) (List.mem_cons_self _ _)
      · exact ih (fun q hq => hsc q (List.mem_cons_of_mem _ hq)) p hmem

lemma foldl_upsert_pos (pd : List String) (w : ℚ) (hw : 0 < w) :
    ∀ sc : List (String × ℚ), (∀ p ∈ sc, 0 < p.2) →
      ∀ p ∈ pd.foldl (fun sc d => upsert sc d w) sc, 0 < p.2 := by
  induction pd with
  | nil => intro sc hsc p hp; exact hsc p hp
  | cons d rest ih =>
    intro sc hsc p hp
    simp only [List.foldl_cons] at hp
    exact ih (upsert sc d w) (upsert_pos sc d w hw hsc) p hp

lemma areaScores_foldl_pos (e : Engine) (pubs : List Publication) :
    ∀ acc : List (String × ℚ), (∀ p ∈ acc, 0 < p.2) →
      ∀ p ∈ pubs.foldl (classifyStep e) acc, 0 < p.2 := by
  induction pubs with
  | nil => intro acc hacc p hp; exact hacc p hp
  | cons pub rest ih =>
    intro acc hacc p hp
    simp only [List.foldl_cons] at hp
    refine ih (classifyStep e acc pub) ?_ p hp
    simp only [classifyStep]
    split
    · exact hacc
    · rename_i hne
      have hlen : 0 < (paperDomains e pub).length := by
        cases hpd : paperDomains e pub with
        | nil => rw [hpd] at hne; simp at hne
        | cons a l => simp [hpd]
      have hw : (0 : ℚ) < 1 / ((paperDomains e pub).length : ℚ) := by
        have : (0 : ℚ) < ((paperDomains e pub).length : ℚ) := by exact_mod_cast hlen
        positivity
      exact foldl_upsert_pos _ _ hw acc hacc

lemma areaScores_pos (e : Engine) (pubs : List Publication) :
    ∀ p ∈ areaScores e pubs, 0 < p.2 :=
  areaScores_foldl_pos e pubs [] (by simp)

lemma sumVals_nonneg_of_pos (l : List (String × ℚ))
    (h : ∀ p ∈ l, 0 < p.2) : 0 ≤ sumVals l := by
  induction l with
  | nil => simp [sumVals]
  | cons p rest ih =>
    simp only [sumVals, List.map_cons, List.sum_cons]
    have h1 := h p (List.mem_cons_self _ _)
    have h2 := ih (fun q hq => h q (List.mem_cons_of_mem _ hq))
    simp only [sumVals] at h2
    linarith

lemma sumVals_pos_of_ne_nil (l : List (String × ℚ))
    (h : ∀ p ∈ l, 0 < p.2) (hne : l ≠ []) : 0 < sumVals l := by
  cases l with
  | nil => exact absurd rfl hne
  | cons p rest =>
    simp only [sumVals, List.map_cons, List.sum_cons]
    have h1 := h p (List.mem_cons_self _ _)
    have h2 := sumVals_nonneg_of_pos rest
      (fun q hq => h q (List.mem_cons_of_mem _ hq))
    simp only [sumVals] at h2
    linarith

lemma abs_round1_sub (x : ℚ) : |round1 x - x| ≤ 1 / 20 := by
  have h := abs_sub_round (10 * x)
  have h2 : round1 x - x = -((10 * x - (round (10 * x) : ℤ)) / 10) := by
    unfold round1
    ring
  rw [h2, abs_neg, abs_div]
  have habs : |(10 : ℚ)| = 10 := by norm_num
  rw [habs]
  linarith

lemma sum_round1_bound (l : List ℚ) (g : ℚ → ℚ) :
    |(l.map (fun v => round1 (g v))).sum - (l.map g).sum| ≤
      (l.length : ℚ) * (1 / 20) := by
  induction l with
  | nil => simp
  | cons x rest ih =>
    simp only [List.map_cons, List.sum_cons, List.length_cons]
    have h1 := abs_round1_sub (g x)
    have hsplit : round1 (g x) + (rest.map (fun v => round1 (g v))).sum -
        (g x + (rest.map g).sum) =
        (round1 (g x) - g x) +
          ((rest.map (fun v => round1 (g v))).sum - (rest.map g).sum) := by
      ring
    rw [hsplit]
    refine le_trans (abs_add _ _) ?_
    push_cast
    linarith

lemma sum_map_div_mul (l : List ℚ) (t c : ℚ) :
    (l.map (fun v => v / t * c)).sum = l.sum / t * c := by
  induction l with
  | nil => simp
  | cons x rest ih =>
    simp only [List.map_cons, List.sum_cons, ih]
    ring

lemma sumVals_map_round (l : List (String × ℚ)) (t : ℚ) :
    sumVals (l.map (fun p => (p.1, round1 (p.2 / t * 100)))) =
      ((l.map Prod.snd).map (fun v => round1 (v / t * 100))).sum := by
  induction l with
  | nil => rfl
  | cons p rest ih =>
    simp only [List.map_cons, sumVals, List.sum_cons] at ih ⊢
    rw [ih]

/-- C2 (amended).  When at least one publication is classified, the
rounded per-domain percentages sum to 100 to within ±0.05 per observed
domain: `|Σ pct − 100| ≤ k/20` for `k` observed domains.  The originally
claimed fixed bound ±0.1 fails once more than two domains are observed
(see the counterexample with six domains, where the sum is 100.2). -/
theorem c2_percentage_sum_bound (e : Engine) (pubs : List Publication)
    (h : areaScores e pubs ≠ []) :
    |sumVals (areaPercentages e pubs) - 100| ≤
      ((areaScores e pubs).length : ℚ) * (1 / 20) := by
  have hpos := areaScores_pos e pubs
  have hT : 0 < sumVals (areaScores e pubs) := sumVals_pos_of_ne_nil _ hpos h
  have hperc : areaPercentages e pubs =
      (areaScores e pubs).map
        (fun p => (p.1, round1 (p.2 / sumVals (areaScores e pubs) * 100))) := by
    simp only [areaPercentages]
    rw [if_pos hT]
  rw [hperc, sumVals_map_round]
  have hexact : (((areaScores e pubs).map Prod.snd).map
      (fun v => v / sumVals (areaScores e pubs) * 100)).sum = 100 := by
    rw [sum_map_div_mul]
    have hrfl : ((areaScores e pubs).map Prod.snd).sum =
        sumVals (areaScores e pubs) := rfl
    rw [hrfl, div_self (ne_of_gt hT)]
    norm_num
  have hb := sum_round1_bound ((areaScores e pubs).map Prod.snd)
    (fun v => v / sumVals (areaScores e pubs) * 100)
  rw [hexact] at hb
  simpa [List.length_map] using hb


/-- The concrete engine for the C2 witness and counterexample: six venues
mapping to six distinct single domains. -/
def engineC2 : Engine :=
  ⟨fun _ => none,
   [("v1", ["D1"]), ("v2", ["D2"]), ("v3", ["D3"]),
    ("v4", ["D4"]), ("v5", ["D5"]), ("v6", ["D6"])]⟩

/-- Six publications, one per registered venue. -/
def pubsC2 : List Publication :=
  [⟨"", "", "v1", none, 0⟩, ⟨"", "", "v2", none, 0⟩, ⟨"", "", "v3", none, 0⟩,
   ⟨"", "", "v4", none, 0⟩, ⟨"", "", "v5", none, 0⟩, ⟨"", "", "v6", none, 0⟩]

/-- Witness for the amended C2 on the concrete six-domain input. -/
theorem c2_percentage_sum_bound_witness :
    |sumVals (areaPercentages engineC2 pubsC2) - 100| ≤
      ((areaScores engineC2 pubsC2).length : ℚ) * (1 / 20) :=
  c2_percentage_sum_bound engineC2 pubsC2 (by decide)

lemma areaScoresC2_eval : areaScores engineC2 pubsC2 =
    [("D1", 1), ("D2", 1), ("D3", 1), ("D4", 1), ("D5", 1), ("D6", 1)] := by
  have h1 : paperDomains engineC2 ⟨"", "", "v1", none, 0⟩ = ["D1"] := by decide
  have h2 : paperDomains engineC2 ⟨"", "", "v2", none, 0⟩ = ["D2"] := by decide
  have h3 : paperDomains engineC2 ⟨"", "", "v3", none, 0⟩ = ["D3"] := by decide
  have h4 : paperDomains engineC2 ⟨"", "", "v4", none, 0⟩ = ["D4"] := by decide
  have h5 : paperDomains engineC2 ⟨"", "", "v5", none, 0⟩ = ["D5"] := by decide
  have h6 : paperDomains engineC2 ⟨"", "", "v6", none, 0⟩ = ["D6"] := by decide
  simp only [areaScores, pubsC2, List.foldl_cons, List.foldl_nil,
    classifyStep, h1, h2, h3, h4, h5, h6]
  norm_num [addDomainWeights, upsert,
    show ("D1":String) ≠ "D2" by decide,
    show ("D1":String) ≠ "D3" by decide,
    show ("D1":String) ≠ "D4" by decide,
    show ("D1":String) ≠ "D5" by decide,
    show ("D1":String) ≠ "D6" by decide,
    show ("D2":String) ≠ "D1" by decide,
    show ("D2":String) ≠ "D3" by decide,
    show ("D2":String) ≠ "D4" by decide,
    show ("D2":String) ≠ "D5" by decide,
    show ("D2":String) ≠ "D6" by decide,
    show ("D3":String) ≠ "D1" by decide,
    show ("D3":String) ≠ "D2" by decide,
    show ("D3":String) ≠ "D4" by decide,
    show ("D3":String) ≠ "D5" by decide,
    show ("D3":String) ≠ "D6" by decide,
    show ("D4":String) ≠ "D1" by decide,
    show ("D4":String) ≠ "D2" by decide,
    show ("D4":String) ≠ "D3" by decide,
    show ("D4":String) ≠ "D5" by decide,
    show ("D4":String) ≠ "D6" by decide,
    show ("D5":String) ≠ "D1" by decide,
    show ("D5":String) ≠ "D2" by decide,
    show ("D5":String) ≠ "D3" by decide,
    show ("D5":String) ≠ "D4" by decide,
    show ("D5":String) ≠ "D6" by decide,
    show ("D6":String) ≠ "D1" by decide,
    show ("D6":String) ≠ "D2" by decide,
    show ("D6":String) ≠ "D3" by decide,
    show ("D6":String) ≠ "D4" by decide,
    show ("D6":String) ≠ "D5" by decide]

/-- Counterexample to C2 as stated: with six equally-weighted observed
domains each percentage rounds from 16.666... up to 16.7, and the
percentages sum to 100.2, outside the claimed ±0.1 band. -/
theorem c2_counterexample :
    ¬ (|sumVals (areaPercentages engineC2 pubsC2) - 100| ≤ 1 / 10) := by
  have hs := areaScoresC2_eval
  have hT : sumVals (areaScores engineC2 pubsC2) = 6 := by
    rw [hs]
    norm_num [sumVals]
  have h10 : (10 : ℚ) * (1 / 6 * 100) = 1000 / 6 := by norm_num
  have h167 : round ((1000 : ℚ) / 6) = 167 := by
    rw [round_eq, Int.floor_eq_iff]
    constructor
    · norm_num
    · norm_num
  have hr : round1 ((1 : ℚ) / 6 * 100) = 167 / 10 := by
    unfold round1
    rw [h10, h167]
    norm_num
  have hpform : areaPercentages engineC2 pubsC2 =
      (areaScores engineC2 pubsC2).map
        (fun p => (p.1, round1 (p.2 / 6 * 100))) := by
    simp only [areaPercentages, hT]
    rw [if_pos (by norm_num : (0 : ℚ) < 6)]
  rw [hpform, hs]
  simp only [List.map_cons, List.map_nil, sumVals, List.sum_cons,
    List.sum_nil]
  rw [hr]
  norm_num
  rw [abs_of_pos (by norm_num : (0 : ℚ) < 1 / 5)]
  norm_num

/-! ## AuthorPositionResolver: `_parse_authors` (analysis_engine.py:
1028-1059), `_is_author_list_truncated` (1061-1079),
`_clean_truncation_markers` (1081-1099) and `_determine_author_position`
(1101-1197).  The `re` patterns are embedded as explicit scanners; all of
them match the source patterns on single-line input (Google Scholar author
strings), where `.*$` reaches the end of the string. -/

/-- The simple truncation indicator substrings
(analysis_engine.py:1063-1066), checked on the lowercased string. -/
def truncationIndicators : List String :=
  ["...", "…", "et al", "et al.", "and others", "and more",
   "+ more", "+ others", "etc"]

/-- Case-insensitive literal prefix match; returns the remaining input.
`pat` is given lowercase. -/
def lowPrefixRest : List Char → List Char → Option (List Char)
  | [], l => some l
  | _, [] => none
  | p :: ps, c :: cs => if c.toLower == p then lowPrefixRest ps cs else none

/-- Embeds `re.search(r'\+\s*\d+\s*more', ...)` at one position. -/
def plusNumMoreAt : List Char → Bool
  | '+' :: rest =>
    let r1 := rest.dropWhile (·.isWhitespace)
    let digits := r1.takeWhile (·.isDigit)
    if digits.isEmpty then false
    else (lowPrefixRest "more".data ((r1.dropWhile (·.isDigit)).dropWhile (·.isWhitespace))).isSome
  | _ => false

/-- Embeds `re.search(r'\+\s*\d+\s*more', ...)` anywhere. -/
def plusNumMore : List Char → Bool
  | [] => false
  | l@(_ :: rest) => plusNumMoreAt l || plusNumMore rest

/-- Embeds `_is_author_list_truncated`. -/
def isAuthorListTruncated (s : String) : Bool :=
  let lower := lowerL s.data
  truncationIndicators.any (fun t => subOccurs t.data lower) || plusNumMore lower

/-- Pattern `\b` before a word character: previous character absent or non-word. -/
def boundaryPrev : Option Char → Bool
  | none => true
  | some c => !isWordChar c

/-- Pattern `\s+` (at least one whitespace character), returning the rest. -/
def wsPlus (l : List Char) : Option (List Char) :=
  if (l.headD 'x').isWhitespace then some (l.dropWhile (·.isWhitespace))
  else none

/-- Pattern `\.\.\..*$` match start. -/
def matchDots (_ : Option Char) (l : List Char) : Bool :=
  "...".data.isPrefixOf l

/-- Pattern `….*$` match start. -/
def matchEllipsis (_ : Option Char) (l : List Char) : Bool :=
  ['…'].isPrefixOf l

/-- Pattern `\bet\s+al\.?.*$` match start (case-insensitive). -/
def matchEtAl (prev : Option Char) (l : List Char) : Bool :=
  boundaryPrev prev &&
  (match lowPrefixRest "et".data l with
   | some r =>
     match wsPlus r with
     | some r2 => (lowPrefixRest "al".data r2).isSome
     | none => false
   | none => false)

/-- Pattern `\band\s+others.*$` match start (case-insensitive). -/
def matchAndOthers (prev : Option Char) (l : List Char) : Bool :=
  boundaryPrev prev &&
  (match lowPrefixRest "and".data l with
   | some r =>
     match wsPlus r with
     | some r2 => (lowPrefixRest "others".data r2).isSome
     | none => false
   | none => false)

/-- Pattern `\band\s+more.*$` match start (case-insensitive). -/
def matchAndMore (prev : Option Char) (l : List Char) : Bool :=
  boundaryPrev prev &&
  (match lowPrefixRest "and".data l with
   | some r =>
     match wsPlus r with
     | some r2 => (lowPrefixRest "more".data r2).isSome
     | none => false
   | none => false)

/-- Pattern `\+\s*others.*$` match start (case-insensitive). -/
def matchPlusOthers (_ : Option Char) (l : List Char) : Bool :=
  match l with
  | '+' :: r => (lowPrefixRest "others".data (r.dropWhile (·.isWhitespace))).isSome
  | _ => false

/-- Pattern `\betc\.?.*$` match start (case-insensitive). -/
def matchEtc (prev : Option Char) (l : List Char) : Bool :=
  boundaryPrev prev && (lowPrefixRest "etc".data l).isSome

/-- Embeds `re.sub(pattern-to-end-of-line, '', s)`: keep everything before the
first (leftmost) match of `matchAt`, tracking the previous character for
`\b`. -/
def cutFromFirst (matchAt : Option Char → List Char → Bool) :
    Option Char → List Char → List Char
  | _, [] => []
  | prev, c :: cs =>
    if matchAt prev (c :: cs) then [] else c :: cutFromFirst matchAt (some c) cs

/-- Python `str.rstrip(',')`. -/
def dropTrailingCommas (l : List Char) : List Char :=
  (l.reverse.dropWhile (· == ',')).reverse

/-- Embeds `_clean_truncation_markers`: the eight patterns applied in source
order, then `.strip().rstrip(',').strip()`. -/
def cleanTruncationMarkers (s : String) : String :=
  let l1 := cutFromFirst matchDots none s.data
  let l2 := cutFromFirst matchEllipsis none l1
  let l3 := cutFromFirst matchEtAl none l2
  let l4 := cutFromFirst matchAndOthers none l3
  let l5 := cutFromFirst matchAndMore none l4
  let l6 := cutFromFirst (fun _ l => plusNumMoreAt l) none l5
  let l7 := cutFromFirst matchPlusOthers none l6
  let l8 := cutFromFirst matchEtc none l7
  String.mk (trimL (dropTrailingCommas (trimL l8)))

/-- One `\s+and\s+` separator at the current position (case-sensitive, as
in `re.split(r',|;|\s+and\s+', ...)`); returns the input after the
separator. -/
def tryAndSep (l : List Char) : Option (List Char) :=
  if (l.headD 'x').isWhitespace then
    let r1 := l.dropWhile (·.isWhitespace)
    if ['a', 'n', 'd'].isPrefixOf r1 then
      let r2 := r1.drop 3
      if (r2.headD 'x').isWhitespace then some (r2.dropWhile (·.isWhitespace))
      else none
    else none
  else none

/-- Embeds `re.split(r',|;|\s+and\s+', s)` as a left-to-right scan.  The first
argument is fuel (one unit per input character suffices, since every step
consumes at least one character); it makes the recursion structural. -/
def splitSepAux : ℕ → List Char → List Char → List (List Char)
  | 0, cur, _ => [cur.reverse]
  | _ + 1, cur, [] => [cur.reverse]
  | fuel + 1, cur, c :: cs =>
    if c == ',' || c == ';' then cur.reverse :: splitSepAux fuel [] cs
    else
      match tryAndSep (c :: cs) with
      | some rest => cur.reverse :: splitSepAux fuel [] rest
      | none => splitSepAux fuel (c :: cur) cs

/-- The author-separator split of `_parse_authors` (line 1041). -/
def splitAuthorSeps (s : String) : List (List Char) :=
  splitSepAux s.data.length [] s.data

/-- Pattern `(Dr\.?|Prof\.?|Mr\.?|Ms\.?|Mrs\.?)` alternatives in source order. -/
def honorifics : List String := ["Dr", "Prof", "Mr", "Ms", "Mrs"]

/-- Embeds `re.sub(r'^(Dr\.?|Prof\.?|Mr\.?|Ms\.?|Mrs\.?)\s+', '', author)`:
an anchored alternation with the optional dot tried greedily first. -/
def stripHonorific (a : List Char) : List Char :=
  match honorifics.findSome? (fun p =>
    if p.data.isPrefixOf a then
      let r := a.drop p.data.length
      let withDot : Option (List Char) :=
        match r with
        | '.' :: r2 =>
          if (r2.headD 'x').isWhitespace then some (r2.dropWhile (·.isWhitespace))
          else none
        | _ => none
      match withDot with
      | some res => some res
      | none =>
        if (r.headD 'x').isWhitespace then some (r.dropWhile (·.isWhitespace))
        else none
    else none) with
  | some res => res
  | none => a

/-- Pattern `(Jr\.?|Sr\.?|III?|IV)` end-anchored alternatives: dotted forms and the
greedy `III` before their shorter variants. -/
def suffixTokens : List String := ["Jr.", "Sr.", "III", "Jr", "Sr", "II", "IV"]

/-- Embeds `re.sub(r'\s+(Jr\.?|Sr\.?|III?|IV)$', '', author)`. -/
def stripNameSuffix (a : List Char) : List Char :=
  match suffixTokens.findSome? (fun s =>
    let st := s.data
    if st.isSuffixOf a then
      let core := a.take (a.length - st.length)
      if (core.getLast?.getD 'x').isWhitespace then
        some ((core.reverse.dropWhile (·.isWhitespace)).reverse)
      else none
    else none) with
  | some res => res
  | none => a

/-- The truncation remnants filtered out of the cleaned tokens
(analysis_engine.py:1052). -/
def truncationRemnants : List String :=
  ["...", "…", "et al", "et al.", "and others", "and more", "etc"]

/-- Embeds `_parse_authors` (analysis_engine.py:1028-1059); the
`'__TRUNCATED__'` sentinel is appended when the raw string was truncated. -/
def parseAuthors (authors_string : String) : List String :=
  if authors_string = "" then []
  else
    let is_truncated := isAuthorListTruncated authors_string
    let clean := cleanTruncationMarkers authors_string
    let authors :=
      ((splitAuthorSeps clean).map (fun t => String.mk (trimL t))).filter (· ≠ "")
    let cleaned := (authors.map (fun a =>
      String.mk (trimL (stripNameSuffix (stripHonorific a.data))))).filter
      (fun a => a ≠ "" && !truncationRemnants.contains a)
    if is_truncated then cleaned ++ ["__TRUNCATED__"] else cleaned

/-- The short connector words that disqualify a surname-only match
(analysis_engine.py:1173). -/
def connectorWords : List String :=
  ["the", "and", "for", "with", "from", "van", "de", "la", "le"]

/-- The per-token owner test of `_determine_author_position`
(analysis_engine.py:1117-1178): full-name substring, "Last, First" /
"First Last" reconstructions, initial+surname forms, then the
whole-word surname fallback.  (For a one-character-less `name_parts[0]`
the source would raise; `str.split()` never produces empty tokens, so the
`[]` branch below is unreachable from `_analyze_authorship`.) -/
def matchesOwner (profileName : String) (nameParts : List String)
    (author : String) : Bool :=
  let al := String.mk (trimL (lowerL author.data))
  if containsStr al (String.mk (lowerL profileName.data)) then true
  else if 2 ≤ nameParts.length then
    let first := nameParts.headD ""
    let lastName := String.mk (lowerL (nameParts.getLastD "").data)
    let reverseName :=
      String.mk (lowerL (nameParts.getLastD "").data ++ [',', ' '] ++ lowerL first.data)
    let fullName :=
      String.mk (lowerL first.data ++ [' '] ++ lowerL (nameParts.getLastD "").data)
    if containsStr al reverseName || containsStr al fullName then true
    else
      let firstInitial : List Char :=
        match first.data with
        | [] => []
        | c :: _ => [c.toLower]
      let p1 := String.mk (firstInitial ++ [' '] ++ lastName.data)
      let p2 := String.mk (firstInitial ++ ['.', ' '] ++ lastName.data)
      let p3 := String.mk (lastName.data ++ [',', ' '] ++ firstInitial)
      let p4 := String.mk (lastName.data ++ [',', ' '] ++ firstInitial ++ ['.'])
      if containsStr al p1 || containsStr al p2 || containsStr al p3 ||
          containsStr al p4 then true
      else
        decide (2 < lastName.length) && subOccurs lastName.data al.data &&
        !(connectorWords.any (fun c => containsStr lastName c)) &&
        wordSearch lastName.data al.data
  else false

/-- The `for i, author in enumerate(author_list)` search: index of the
first token any hypothesis matches. -/
def findProfileIndexAux (profileName : String) (nameParts : List String) :
    List String → Option ℕ
  | [] => none
  | a :: rest =>
    if matchesOwner profileName nameParts a then some 0
    else (findProfileIndexAux profileName nameParts rest).map (· + 1)

/-- The owner's index among the visible author tokens, if found. -/
def findProfileIndex (profileName : String) (nameParts : List String)
    (authors : List String) : Option ℕ :=
  findProfileIndexAux profileName nameParts authors

/-- Embeds `_determine_author_position` (analysis_engine.py:1101-1197). -/
def determineAuthorPosition (profileName : String) (nameParts : List String)
    (authorList : List String) : String :=
  if authorList.isEmpty then "unknown"
  else
    let isTruncated := authorList.contains "__TRUNCATED__"
    let visible := authorList.filter (· ≠ "__TRUNCATED__")
    if visible.length = 1 ∧ isTruncated = false then "single_author"
    else
      match findProfileIndex profileName nameParts visible with
      | none => "unknown"
      | some i =>
        if i = 0 then "first_author"
        else if i = 1 then "second_author"
        else if i = visible.length - 1 ∧ isTruncated = false then "last_author"
        else if i = visible.length - 1 ∧ isTruncated = true then "middle_author"
        else "middle_author"

/-! ## `_analyze_authorship` (analysis_engine.py:958-1026). -/

/-- The per-paper record appended to a role bucket's `papers` list. -/
structure PaperData where
  title : String
  year : Option Int
  citations : ℕ
deriving DecidableEq

/-- One role bucket: `{'count': ..., 'citations': ..., 'papers': [...]}`. -/
structure RoleBucket where
  count : ℕ
  citations : ℕ
  papers : List PaperData
deriving DecidableEq

/-- The seven-bucket `authorship_stats` dict
(analysis_engine.py:963-971). -/
structure AuthorshipStats where
  first_author : RoleBucket
  second_author : RoleBucket
  last_author : RoleBucket
  middle_author : RoleBucket
  single_author : RoleBucket
  corresponding_author : RoleBucket
  unknown : RoleBucket
deriving DecidableEq

/-- An empty bucket. -/
def emptyBucket : RoleBucket := ⟨0, 0, []⟩

/-- The initial `authorship_stats`. -/
def initialStats : AuthorshipStats :=
  ⟨emptyBucket, emptyBucket, emptyBucket, emptyBucket, emptyBucket,
   emptyBucket, emptyBucket⟩

/-- Embeds `count += 1; citations += c; papers.append(p)`. -/
def bumpBucket (b : RoleBucket) (p : PaperData) : RoleBucket :=
  ⟨b.count + 1, b.citations + p.citations, b.papers ++ [p]⟩

/-- Embeds `authorship_stats[role]` update.  `_determine_author_position` only
produces the six role strings below plus `'unknown'`; the final branch is
the `'unknown'` bucket. -/
def updateBucket (stats : AuthorshipStats) (role : String) (p : PaperData) :
    AuthorshipStats :=
  if role = "first_author" then
    { stats with first_author := bumpBucket stats.first_author p }
  else if role = "second_author" then
    { stats with second_author := bumpBucket stats.second_author p }
  else if role = "last_author" then
    { stats with last_author := bumpBucket stats.last_author p }
  else if role = "middle_author" then
    { stats with middle_author := bumpBucket stats.middle_author p }
  else if role = "single_author" then
    { stats with single_author := bumpBucket stats.single_author p }
  else if role = "corresponding_author" then
    { stats with corresponding_author := bumpBucket stats.corresponding_author p }
  else { stats with unknown := bumpBucket stats.unknown p }

/-- One iteration of the `_analyze_authorship` loop
(analysis_engine.py:973-1015): the primary role update, plus the
single-author duplication into first/last and the two-author
second-author duplication into last (`len(author_list) == 2` counts the
raw parse output, truncation sentinel included). -/
def stepAuthorship (profileName : String) (nameParts : List String)
    (stats : AuthorshipStats) (pub : Publication) : AuthorshipStats :=
  let author_list := parseAuthors pub.authors
  let position := determineAuthorPosition profileName nameParts author_list
  let paper : PaperData := ⟨pub.title, pub.year, pub.citation_count⟩
  let stats1 := updateBucket stats position paper
  if position = "single_author" then
    updateBucket (updateBucket stats1 "first_author" paper) "last_author" paper
  else if position = "second_author" ∧ author_list.length = 2 then
    updateBucket stats1 "last_author" paper
  else stats1

/-- Embeds `_analyze_authorship` bucket accumulation (percentage/average fields
are computed afterwards by `rolePercentage` / `roleAvgCitations`). -/
def analyzeAuthorship (name : String) (pubs : List Publication) :
    AuthorshipStats :=
  let profileName := String.mk (lowerL name.data)
  let nameParts := splitWS profileName
  pubs.foldl (stepAuthorship profileName nameParts) initialStats

/-- Embeds `percentage` field (analysis_engine.py:1021). -/
def rolePercentage (totalPapers : ℕ) (b : RoleBucket) : ℚ :=
  if 0 < totalPapers then round1 ((b.count : ℚ) / (totalPapers : ℚ) * 100)
  else 0

/-- Embeds `avg_citations` field (analysis_engine.py:1022-1024). -/
def roleAvgCitations (b : RoleBucket) : ℚ :=
  if 0 < b.count then round1 ((b.citations : ℚ) / (b.count : ℚ)) else 0

lemma findAux_lt_length (pn : String) (nps : List String) (l : List String)
    (i : ℕ) (h : findProfileIndexAux pn nps l = some i) : i < l.length := by
  induction l generalizing i with
  | nil => simp [findProfileIndexAux] at h
  | cons a rest ih =>
    simp only [findProfileIndexAux] at h
    split at h
    · cases h
      simp
    · cases hr : findProfileIndexAux pn nps rest with
      | none => rw [hr] at h; simp at h
      | some j =>
        rw [hr] at h
        simp at h
        have := ih j hr
        simp
        omega

/-- C4.  When the owner is found at the last visible position of the
author token list, the role is `last_author` for a non-truncated list and
`middle_author` for a truncated one (stated for last positions ≥ 2, since
visible positions 0 and 1 resolve to `first_author`/`second_author`
independently of truncation, as also proved here); moreover a truncated
list never resolves to `last_author` at all. -/
theorem c4_truncated_last (pn : String) (nps : List String) (al : List String) :
    (∀ i, findProfileIndex pn nps (al.filter (· ≠ "__TRUNCATED__")) = some i →
      ((i = (al.filter (· ≠ "__TRUNCATED__")).length - 1 ∧
          3 ≤ (al.filter (· ≠ "__TRUNCATED__")).length →
        determineAuthorPosition pn nps al =
          (if al.contains "__TRUNCATED__" then "middle_author" else "last_author")) ∧
       (i = 0 ∧ 2 ≤ (al.filter (· ≠ "__TRUNCATED__")).length →
        determineAuthorPosition pn nps al = "first_author") ∧
       (i = 1 → determineAuthorPosition pn nps al = "second_author"))) ∧
    (al.contains "__TRUNCATED__" = true →
      determineAuthorPosition pn nps al ≠ "last_author") := by
  constructor
  · intro i hfind
    have hlt := findAux_lt_length pn nps (al.filter (· ≠ "__TRUNCATED__")) i hfind
    have hal : al.isEmpty = false := by
      cases al with
      | nil => simp at hlt
      | cons a l => rfl
    refine ⟨?_, ?_, ?_⟩
    · rintro ⟨hi, hlen⟩
      simp only [determineAuthorPosition, hal]
      rw [if_neg (show ¬ (false = true) by decide)]
      rw [if_neg (fun h => absurd h.1 (by omega))]
      simp only [hfind]
      rw [if_neg (show ¬ i = 0 by omega), if_neg (show ¬ i = 1 by omega)]
      cases hct : al.contains "__TRUNCATED__" with
      | false =>
        rw [if_pos ⟨hi, rfl⟩, if_neg (by decide)]
      | true =>
        rw [if_neg (fun h => absurd h.2 (by decide)), if_pos ⟨hi, rfl⟩,
          if_pos rfl]
    · rintro ⟨hi, hlen⟩
      subst hi
      simp only [determineAuthorPosition, hal]
      rw [if_neg (show ¬ (false = true) by decide)]
      rw [if_neg (fun h => absurd h.1 (by omega))]
      simp only [hfind]
      rw [if_pos trivial]
    · intro hi
      subst hi
      simp only [determineAuthorPosition, hal]
      rw [if_neg (show ¬ (false = true) by decide)]
      rw [if_neg (fun h => absurd h.1 (by omega))]
      simp only [hfind]
      rw [if_pos trivial]
      decide
  · intro hct
    simp only [determineAuthorPosition, hct]
    repeat' split
    all_goals first
      | decide
      | (rename_i hcontra; exact absurd hcontra.2 (by decide))

/-- Witness for C4: the owner at the true last position of a three-author
list resolves to `last_author`; with a truncation sentinel appended, the
visible-last owner is not `last_author`. -/
theorem c4_truncated_last_witness :
    determineAuthorPosition "b jones" ["b", "jones"]
      ["a smith", "c lee", "b jones"] = "last_author" ∧
    determineAuthorPosition "b jones" ["b", "jones"]
      ["a smith", "c lee", "b jones", "__TRUNCATED__"] ≠ "last_author" :=
  ⟨(((c4_truncated_last "b jones" ["b", "jones"]
      ["a smith", "c lee", "b jones"]).1 2 (by decide)).1
      ⟨by decide, by decide⟩).trans (by decide),
   (c4_truncated_last "b jones" ["b", "jones"]
      ["a smith", "c lee", "b jones", "__TRUNCATED__"]).2 (by decide)⟩

/-- C5 (amended).  A paper resolved as `second_author` whose parsed author
token list has length exactly 2 *including the truncation sentinel* —
equivalently, exactly two real author tokens and no truncation — is also
recorded in the `last_author` bucket.  (The source compares
`len(author_list) == 2` on the raw parse output, which counts the
`'__TRUNCATED__'` sentinel; a truncated two-visible-author paper therefore
has length 3 and is *not* duplicated, contrary to the original claim's
parenthetical.) -/
theorem c5_two_author_duplication (pn : String) (nps : List String)
    (stats : AuthorshipStats) (pub : Publication)
    (hpos : determineAuthorPosition pn nps (parseAuthors pub.authors) =
      "second_author")
    (hlen : (parseAuthors pub.authors).length = 2) :
    (stepAuthorship pn nps stats pub).second_author =
      bumpBucket stats.second_author ⟨pub.title, pub.year, pub.citation_count⟩ ∧
    (stepAuthorship pn nps stats pub).last_author =
      bumpBucket stats.last_author ⟨pub.title, pub.year, pub.citation_count⟩ := by
  simp only [stepAuthorship, hpos, hlen]
  rw [if_neg (show ¬ ("second_author" = "single_author") by decide),
    if_pos (by simp)]
  constructor
  · rfl
  · rfl

/-- Witness for the amended C5: owner second of exactly two authors, no
truncation. -/
theorem c5_two_author_duplication_witness :
    (stepAuthorship "b jones" ["b", "jones"] initialStats
        ⟨"t", "A Smith and B Jones", "", none, 2⟩).second_author =
      bumpBucket initialStats.second_author ⟨"t", none, 2⟩ ∧
    (stepAuthorship "b jones" ["b", "jones"] initialStats
        ⟨"t", "A Smith and B Jones", "", none, 2⟩).last_author =
      bumpBucket initialStats.last_author ⟨"t", none, 2⟩ :=
  c5_two_author_duplication "b jones" ["b", "jones"] initialStats
    ⟨"t", "A Smith and B Jones", "", none, 2⟩ (by decide) (by decide)

/-- Counterexample to C5 as stated: a truncated list with exactly two
real author tokens.  The role is `second_author` and there are two
author tokens not counting the sentinel, yet the paper is not recorded in
`last_author` (the code's length test counts the sentinel, giving 3). -/
theorem c5_truncated_counterexample :
    parseAuthors "A Smith, B Jones, et al" =
      ["A Smith", "B Jones", "__TRUNCATED__"] ∧
    determineAuthorPosition "b jones" ["b", "jones"]
      (parseAuthors "A Smith, B Jones, et al") = "second_author" ∧
    ((parseAuthors "A Smith, B Jones, et al").filter
      (· ≠ "__TRUNCATED__")).length = 2 ∧
    (analyzeAuthorship "B Jones"
      [⟨"t", "A Smith, B Jones, et al", "", none, 2⟩]).second_author.count = 1 ∧
    (analyzeAuthorship "B Jones"
      [⟨"t", "A Smith, B Jones, et al", "", none, 2⟩]).last_author.count = 0 := by
  refine ⟨by decide, by decide, by decide, by decide, by decide⟩

/-- C9 (amended).  A publication with an empty raw author string is
resolved as `unknown` and is recorded in the `unknown` bucket — and only
there: the six other buckets are untouched.  (The original claim's "no
role bucket's count is incremented" fails: the `unknown` bucket is a role
bucket of `authorship_stats` and its count does increase.) -/
theorem c9_empty_authors (pn : String) (nps : List String)
    (stats : AuthorshipStats) (pub : Publication) (h : pub.authors = "") :
    determineAuthorPosition pn nps (parseAuthors pub.authors) = "unknown" ∧
    stepAuthorship pn nps stats pub =
      { stats with unknown :=
          bumpBucket stats.unknown ⟨pub.title, pub.year, pub.citation_count⟩ } := by
  obtain ⟨t, a, v, y, c⟩ := pub
  simp only at h
  subst h
  exact ⟨rfl, rfl⟩

/-- Witness for the amended C9 at a concrete publication. -/
theorem c9_empty_authors_witness :
    determineAuthorPosition "x" [] (parseAuthors "") = "unknown" ∧
    stepAuthorship "x" [] initialStats ⟨"t", "", "", none, 5⟩ =
      { initialStats with unknown := bumpBucket initialStats.unknown ⟨"t", none, 5⟩ } :=
  c9_empty_authors "x" [] initialStats ⟨"t", "", "", none, 5⟩ rfl

/-- Counterexample to C9 as stated: one publication with an empty author
string leaves the authorship totals changed — the `unknown` bucket's count
becomes 1 and its citation sum 3. -/
theorem c9_counterexample :
    (analyzeAuthorship "Some Name" [⟨"t", "", "", none, 3⟩]).unknown.count = 1 ∧
    (analyzeAuthorship "Some Name" [⟨"t", "", "", none, 3⟩]).unknown.citations = 3 := by
  refine ⟨by decide, by decide⟩

lemma position_ne_corresponding (pn : String) (nps : List String)
    (al : List String) :
    determineAuthorPosition pn nps al ≠ "corresponding_author" := by
  simp only [determineAuthorPosition]
  repeat' split
  all_goals decide

lemma updateBucket_corresponding (stats : AuthorshipStats) (role : String)
    (p : PaperData) (h : role ≠ "corresponding_author") :
    (updateBucket stats role p).corresponding_author =
      stats.corresponding_author := by
  unfold updateBucket
  repeat' split
  all_goals rfl

lemma stepAuthorship_corresponding (pn : String) (nps : List String)
    (stats : AuthorshipStats) (pub : Publication) :
    (stepAuthorship pn nps stats pub).corresponding_author =
      stats.corresponding_author := by
  have hpos := position_ne_corresponding pn nps (parseAuthors pub.authors)
  simp only [stepAuthorship]
  split
  · rw [updateBucket_corresponding _ _ _ (by decide),
      updateBucket_corresponding _ _ _ (by decide),
      updateBucket_corresponding _ _ _ hpos]
  · split
    · rw [updateBucket_corresponding _ _ _ (by decide),
        updateBucket_corresponding _ _ _ hpos]
    · rw [updateBucket_corresponding _ _ _ hpos]

lemma foldl_stepAuthorship_corresponding (pn : String) (nps : List String)
    (pubs : List Publication) :
    ∀ acc : AuthorshipStats,
      (pubs.foldl (stepAuthorship pn nps) acc).corresponding_author =
        acc.corresponding_author := by
  induction pubs with
  | nil => intro acc; rfl
  | cons pub rest ih =>
    intro acc
    simp only [List.foldl_cons]
    rw [ih, stepAuthorship_corresponding]

/-- C10.  No code path of `_analyze_authorship` ever records a paper in
the `corresponding_author` bucket: for every profile name and publication
list it stays empty, and its percentage and average-citation fields are
both 0. -/
theorem c10_corresponding_empty (name : String) (pubs : List Publication) :
    (analyzeAuthorship name pubs).corresponding_author = emptyBucket ∧
    rolePercentage pubs.length
      ((analyzeAuthorship name pubs).corresponding_author) = 0 ∧
    roleAvgCitations
      ((analyzeAuthorship name pubs).corresponding_author) = 0 := by
  have hb : (analyzeAuthorship name pubs).corresponding_author = emptyBucket := by
    simp only [analyzeAuthorship]
    rw [foldl_stepAuthorship_corresponding]
    rfl
  refine ⟨hb, ?_, ?_⟩
  · rw [hb]
    unfold rolePercentage
    split
    · simp [emptyBucket, round1]
    · rfl
  · rw [hb]
    rfl
